import Mathlib

/-!
Verification of the websocket connection manager and chat routes of the
EECS 581 Project 3 live-chat backend.

The embedding models `server/websocket/manager.py` (class `ConnectionManager`:
`connect`, `disconnect`, `broadcast_to_room`) and the per-event steps of the
websocket endpoint in `server/websocket/routes.py`.  Python dictionaries are
modelled as association lists with dict semantics (unique keys, update in
place, delete removes the binding); websocket handles are modelled as natural
numbers (handle identity is all the code uses); the database session is a list
of message rows; the nondeterministic environment (does the INSERT raise
`IntegrityError`? does `send_json` to a given connection raise?) is a record
of oracles passed in explicitly.
-/

namespace ChatServer

/-! ## Association-list model of Python dictionaries -/

/-- Lookup of a key: Python `d[k]` / `k in d`.  Returns the first binding;
maps built by `aset`/`adel` from the empty list never hold duplicate keys. -/
def aget {α : Type} (m : List (Nat × α)) (k : Nat) : Option α :=
  match m with
  | [] => none
  | (k', v) :: rest => if k' = k then some v else aget rest k

/-- Python `d[k] = v`: replace the binding if the key is present, otherwise
append the new binding (dict insertion order). -/
def aset {α : Type} (m : List (Nat × α)) (k : Nat) (v : α) : List (Nat × α) :=
  match m with
  | [] => [(k, v)]
  | (k', v') :: rest => if k' = k then (k, v) :: rest else (k', v') :: aset rest k v

/-- Python `del d[k]`: remove the binding of `k`. -/
def adel {α : Type} (m : List (Nat × α)) (k : Nat) : List (Nat × α) :=
  match m with
  | [] => []
  | (k', v) :: rest => if k' = k then adel rest k else (k', v) :: adel rest k

theorem aget_aset_self {α : Type} (m : List (Nat × α)) (k : Nat) (v : α) :
    aget (aset m k v) k = some v := by
  induction m with
  | nil => simp [aget, aset]
  | cons p rest ih =>
      obtain ⟨a, b⟩ := p
      by_cases h : a = k
      · simp [aset, aget, h]
      · simp [aset, aget, h, ih]

theorem aget_aset_ne {α : Type} (m : List (Nat × α)) (k k' : Nat) (v : α)
    (h : k' ≠ k) : aget (aset m k v) k' = aget m k' := by
  have h' : ¬ (k = k') := fun hh => h hh.symm
  induction m with
  | nil => simp [aget, aset, h']
  | cons p rest ih =>
      obtain ⟨a, b⟩ := p
      by_cases hp : a = k
      · simp [aset, aget, hp, h', h]
      · by_cases hq : a = k'
        · simp [aset, aget, hp, hq, h', h]
        · simp [aset, aget, hp, hq, ih]

theorem aget_adel_self {α : Type} (m : List (Nat × α)) (k : Nat) :
    aget (adel m k) k = none := by
  induction m with
  | nil => rfl
  | cons p rest ih =>
      obtain ⟨a, b⟩ := p
      by_cases hp : a = k
      · simpa [adel, hp] using ih
      · simpa [adel, aget, hp] using ih

theorem aget_adel_ne {α : Type} (m : List (Nat × α)) (k k' : Nat)
    (h : k' ≠ k) : aget (adel m k) k' = aget m k' := by
  have h' : ¬ (k = k') := fun hh => h hh.symm
  induction m with
  | nil => rfl
  | cons p rest ih =>
      obtain ⟨a, b⟩ := p
      by_cases hp : a = k
      · simp [adel, aget, hp, h', h, ih]
      · by_cases hq : a = k'
        · simp [adel, aget, hp, hq, h', h]
        · simp [adel, aget, hp, hq, ih]

theorem mem_adel {α : Type} {p : Nat × α} {m : List (Nat × α)} {k : Nat} :
    p ∈ adel m k ↔ p ∈ m ∧ p.1 ≠ k := by
  induction m with
  | nil => simp [adel]
  | cons q rest ih =>
      obtain ⟨a, b⟩ := q
      by_cases hp : a = k
      · simp only [adel, if_pos hp, ih, List.mem_cons]
        constructor
        · rintro ⟨hm, hne⟩
          exact ⟨Or.inr hm, hne⟩
        · rintro ⟨hm | hm, hne⟩
          · have hk : p.1 = k := by
              rw [hm]
              exact hp
            exact absurd hk hne
          · exact ⟨hm, hne⟩
      · simp only [adel, if_neg hp, List.mem_cons, ih]
        constructor
        · rintro (hm | ⟨hm, hne⟩)
          · refine ⟨Or.inl hm, ?_⟩
            rw [hm]
            exact hp
          · exact ⟨Or.inr hm, hne⟩
        · rintro ⟨hm | hm, hne⟩
          · exact Or.inl hm
          · exact Or.inr ⟨hm, hne⟩

theorem adel_sublist {α : Type} (m : List (Nat × α)) (k : Nat) :
    (adel m k).Sublist m := by
  induction m with
  | nil => simp [adel]
  | cons p rest ih =>
      obtain ⟨a, b⟩ := p
      by_cases hp : a = k
      · simp only [adel, if_pos hp]
        exact ih.cons _
      · simp only [adel, if_neg hp]
        exact ih.cons₂ _

theorem aget_some_mem {α : Type} {m : List (Nat × α)} {k : Nat} {v : α}
    (h : aget m k = some v) : (k, v) ∈ m := by
  induction m with
  | nil => simp [aget] at h
  | cons p rest ih =>
      obtain ⟨a, b⟩ := p
      by_cases hp : a = k
      · simp [aget, hp] at h
        subst hp
        subst h
        exact List.mem_cons_self _ _
      · simp [aget, hp] at h
        exact List.mem_cons_of_mem _ (ih h)

theorem aget_none_not_mem {α : Type} {m : List (Nat × α)} {k : Nat}
    (h : aget m k = none) : ∀ v : α, (k, v) ∉ m := by
  induction m with
  | nil => simp
  | cons p rest ih =>
      obtain ⟨a, b⟩ := p
      by_cases hp : a = k
      · simp [aget, hp] at h
      · simp [aget, hp] at h
        intro v hv
        rcases List.mem_cons.1 hv with hv | hv
        · have : k = a := congrArg Prod.fst hv
          exact hp this.symm
        · exact ih h v hv

theorem mem_keys_aset {α : Type} {m : List (Nat × α)} {k k' : Nat} {v : α} :
    k' ∈ (aset m k v).map Prod.fst → k' = k ∨ k' ∈ m.map Prod.fst := by
  induction m with
  | nil =>
      intro h
      simp [aset] at h
      exact Or.inl h
  | cons p rest ih =>
      obtain ⟨a, b⟩ := p
      intro h
      by_cases hp : a = k
      · simp only [aset, if_pos hp, List.map_cons, List.mem_cons] at h ⊢
        rcases h with h | h
        · exact Or.inl h
        · exact Or.inr (Or.inr h)
      · simp only [aset, if_neg hp, List.map_cons, List.mem_cons] at h ⊢
        rcases h with h | h
        · exact Or.inr (Or.inl h)
        · rcases ih h with h1 | h1
          · exact Or.inl h1
          · exact Or.inr (Or.inr h1)

theorem keys_nodup_aset {α : Type} {m : List (Nat × α)} (k : Nat) (v : α)
    (h : (m.map Prod.fst).Nodup) : ((aset m k v).map Prod.fst).Nodup := by
  induction m with
  | nil => simp [aset]
  | cons p rest ih =>
      obtain ⟨a, b⟩ := p
      simp only [List.map_cons, List.nodup_cons] at h
      by_cases hp : a = k
      · simp only [aset, if_pos hp, List.map_cons, List.nodup_cons]
        refine ⟨?_, h.2⟩
        intro hmem
        exact h.1 (hp ▸ hmem)
      · simp only [aset, if_neg hp, List.map_cons, List.nodup_cons]
        refine ⟨?_, ih h.2⟩
        intro hmem
        rcases mem_keys_aset hmem with h1 | h1
        · exact hp h1
        · exact h.1 h1

theorem keys_nodup_adel {α : Type} {m : List (Nat × α)} (k : Nat)
    (h : (m.map Prod.fst).Nodup) : ((adel m k).map Prod.fst).Nodup := by
  exact ((adel_sublist m k).map Prod.fst).nodup h

theorem mem_aset {α : Type} {p : Nat × α} {m : List (Nat × α)} {k : Nat} {v : α} :
    p ∈ aset m k v → p = (k, v) ∨ p ∈ m := by
  induction m with
  | nil =>
      intro h
      simp [aset] at h
      exact Or.inl h
  | cons q rest ih =>
      obtain ⟨a, b⟩ := q
      intro h
      by_cases hp : a = k
      · simp only [aset, if_pos hp, List.mem_cons] at h
        rcases h with h | h
        · exact Or.inl h
        · exact Or.inr (List.mem_cons_of_mem _ h)
      · simp only [aset, if_neg hp, List.mem_cons] at h
        rcases h with h | h
        · exact Or.inr (by simp [h])
        · rcases ih h with h1 | h1
          · exact Or.inl h1
          · exact Or.inr (List.mem_cons_of_mem _ h1)

/-- Under unique keys, membership in `aset m k v` is exactly: the new
binding, or an old binding whose key differs from `k`. -/
theorem mem_aset_iff {α : Type} {p : Nat × α} {m : List (Nat × α)} {k : Nat} {v : α}
    (hnd : (m.map Prod.fst).Nodup) :
    p ∈ aset m k v ↔ p = (k, v) ∨ (p ∈ m ∧ p.1 ≠ k) := by
  induction m with
  | nil => simp [aset]
  | cons q rest ih =>
      obtain ⟨a, b⟩ := q
      simp only [List.map_cons, List.nodup_cons] at hnd
      by_cases hp : a = k
      · simp only [aset, if_pos hp, List.mem_cons]
        constructor
        · rintro (h | h)
          · exact Or.inl h
          · refine Or.inr ⟨Or.inr h, ?_⟩
            intro hk
            exact hnd.1 (hp ▸ hk ▸ List.mem_map_of_mem Prod.fst h)
        · rintro (h | ⟨h | h, hne⟩)
          · exact Or.inl h
          · have hk : p.1 = k := by
              rw [h]
              exact hp
            exact absurd hk hne
          · exact Or.inr h
      · simp only [aset, if_neg hp, List.mem_cons, ih hnd.2]
        constructor
        · rintro (h | h | ⟨h1, h2⟩)
          · refine Or.inr ⟨Or.inl h, ?_⟩
            rw [h]
            exact hp
          · exact Or.inl h
          · exact Or.inr ⟨Or.inr h1, h2⟩
        · rintro (h | ⟨h | h, hne⟩)
          · exact Or.inr (Or.inl h)
          · exact Or.inl h
          · exact Or.inr (Or.inr ⟨h, hne⟩)

/-! ## Data model

`manager.py`: `active_connections : Dict[int, List[WebSocket]]` maps
room_id to the list of websockets in that room; `user_info :
Dict[WebSocket, dict]` maps each websocket to `{user_id, username,
room_id}`.  Websocket handles are `Nat`. -/

/-- The per-connection metadata dict stored in `user_info`
(manager.py lines 89-93). -/
structure UserInfo where
  user_id : Nat
  username : String
  room_id : Nat
deriving Repr, DecidableEq

/-- The mutable state of the `ConnectionManager` singleton. -/
structure ManagerState where
  active_connections : List (Nat × List Nat)
  user_info : List (Nat × UserInfo)
deriving Repr, DecidableEq

/-- `ConnectionManager.__init__`: both dicts start empty. -/
def initialState : ManagerState := ⟨[], []⟩

/-- A row of the `messages` table (database.py class `Message`): the
columns written by `broadcast_to_room` (`id` and the timestamp columns are
database-generated and irrelevant to the claims). -/
structure MessageRow where
  content : String
  user_id : Nat
  room_id : Nat
deriving Repr, DecidableEq

/-- The database session: the committed rows of the `messages` table. -/
structure DB where
  rows : List MessageRow
deriving Repr, DecidableEq

/-- The outbound event dicts built in routes.py (§6 of the spec): the
three shapes `user_joined`, `user_left` and `message`, with fields in the
order the dict literals write them. -/
inductive MessageEvent where
  | user_joined (user_id : Nat) (username : String) (timestamp : String) (message : String)
  | user_left (user_id : Nat) (username : String) (timestamp : String) (message : String)
  | message (content : String) (user_id : Nat) (username : String) (room_id : Nat) (timestamp : String)
deriving Repr, DecidableEq

/-- Whether an event is a `user_left` event. -/
def MessageEvent.isUserLeft : MessageEvent → Bool
  | .user_left _ _ _ _ => true
  | _ => false

/-- One character of Python `json.dumps` string escaping.  (`json.dumps`
additionally `\u`-escapes the remaining control characters and, with the
default `ensure_ascii`, non-ASCII characters; no input considered here
contains such characters.) -/
def jsonEscapeChar (c : Char) : String :=
  if c = '"' then "\\\""
  else if c = '\\' then "\\\\"
  else if c = '\n' then "\\n"
  else if c = '\t' then "\\t"
  else if c = '\r' then "\\r"
  else String.singleton c

/-- Python `json.dumps` applied to a string. -/
def jsonStr (s : String) : String :=
  "\"" ++ String.join (s.toList.map jsonEscapeChar) ++ "\""

/-- `json.dumps` applied to one of the outbound event dicts, with the
default separators `", "` and `": "` and keys in dict insertion order —
this is the value stored in the `content` column by `broadcast_to_room`
(manager.py line 157, `content=json_dump(message)`). -/
def jsonDump : MessageEvent → String
  | .user_joined uid uname ts msg =>
      "\x7b\"type\": \"user_joined\", \"user_id\": " ++ toString uid ++
      ", \"username\": " ++ jsonStr uname ++ ", \"timestamp\": " ++ jsonStr ts ++
      ", \"message\": " ++ jsonStr msg ++ "\x7d"
  | .user_left uid uname ts msg =>
      "\x7b\"type\": \"user_left\", \"user_id\": " ++ toString uid ++
      ", \"username\": " ++ jsonStr uname ++ ", \"timestamp\": " ++ jsonStr ts ++
      ", \"message\": " ++ jsonStr msg ++ "\x7d"
  | .message c uid uname rid ts =>
      "\x7b\"type\": \"message\", \"content\": " ++ jsonStr c ++
      ", \"user_id\": " ++ toString uid ++ ", \"username\": " ++ jsonStr uname ++
      ", \"room_id\": " ++ toString rid ++ ", \"timestamp\": " ++ jsonStr ts ++ "\x7d"

/-- Environment oracles for the two failure sources in
`broadcast_to_room`: does `db.commit()` raise `IntegrityError`, and does
`connection.send_json(...)` raise for a given websocket handle. -/
structure Env where
  insertFails : Bool
  sendFails : Nat → Bool

/-- Outcome of `broadcast_to_room`: normal return carrying the updated
session, manager state and the sends performed (receiver handle paired
with the event it received), or the raised `HTTPException` (status code)
with the session and state as the exception leaves them. -/
inductive BroadcastResult where
  | ok (db : DB) (st : ManagerState) (sends : List (Nat × MessageEvent))
  | httpError (code : Nat) (db : DB) (st : ManagerState)
deriving Repr, DecidableEq

/-- The sends performed during a `broadcast_to_room` call (none when the
`IntegrityError` branch raised before the fan-out loop). -/
def BroadcastResult.sends : BroadcastResult → List (Nat × MessageEvent)
  | .ok _ _ s => s
  | .httpError _ _ _ => []

/-- The manager state after a `broadcast_to_room` call. -/
def BroadcastResult.state : BroadcastResult → ManagerState
  | .ok _ st _ => st
  | .httpError _ _ st => st

/-- The database session after a `broadcast_to_room` call. -/
def BroadcastResult.db : BroadcastResult → DB
  | .ok d _ _ => d
  | .httpError _ d _ => d

/-! ## ConnectionManager operations (manager.py) -/

/-- `ConnectionManager.connect`, lines 62-93, after the
`websocket.accept()` handshake has succeeded: ensure the room has an
entry (lines 82-83: treated as `[]` when absent), append the websocket to
the room's list (line 86), and store the metadata dict (lines 89-93).
Handshake failure is modelled at the caller (`handle_join`), where the
raised exception aborts before any of these mutations. -/
def connect (st : ManagerState) (websocket room_id user_id : Nat)
    (username : String) : ManagerState :=
  let conns := (aget st.active_connections room_id).getD []
  { active_connections := aset st.active_connections room_id (conns ++ [websocket]),
    user_info := aset st.user_info websocket ⟨user_id, username, room_id⟩ }

/-- `ConnectionManager.disconnect`, lines 95-130: look the websocket up in
`user_info`; if absent return `None` leaving the state untouched;
otherwise remove it from its room's list (Python `list.remove`, which in
every reachable state finds the element), delete the room entry if the
list became empty, delete the metadata, and return the metadata. -/
def disconnect (st : ManagerState) (websocket : Nat) :
    Option UserInfo × ManagerState :=
  match aget st.user_info websocket with
  | some user_data =>
      let room_id := user_data.room_id
      let st1 :=
        match aget st.active_connections room_id with
        | some conns =>
            let conns' := conns.erase websocket
            if conns' = [] then
              { st with active_connections := adel st.active_connections room_id }
            else
              { st with active_connections := aset st.active_connections room_id conns' }
        | none => st
      (some user_data, { st1 with user_info := adel st1.user_info websocket })
  | none => (none, st)

/-- `ConnectionManager.broadcast_to_room`, lines 132-185.  The whole body
is guarded by `if room_id in self.active_connections` (line 153).  The
message is persisted first (lines 155-162); an `IntegrityError` rolls the
transaction back and raises `HTTPException(400)` (lines 163-169), so no
send happens for an unpersisted message.  Otherwise the fan-out loop
attempts `send_json` on every connection in the room's list, collecting
failing connections instead of aborting (lines 171-181), and finally
calls `self.disconnect` on each collected connection (lines 183-185). -/
def broadcast_to_room (env : Env) (db : DB) (st : ManagerState)
    (room_id user_id : Nat) (message : MessageEvent) : BroadcastResult :=
  match aget st.active_connections room_id with
  | none => .ok db st []
  | some conns =>
      if env.insertFails then
        .httpError 400 db st
      else
        let db' : DB := ⟨db.rows ++ [⟨jsonDump message, user_id, room_id⟩]⟩
        let sends := (conns.filter (fun c => !env.sendFails c)).map (fun c => (c, message))
        let disconnected := conns.filter (fun c => env.sendFails c)
        let st' := disconnected.foldl (fun s c => (disconnect s c).2) st
        .ok db' st' sends

/-! ## Derived views of the state -/

/-- The member list of a room (empty when the room has no entry). -/
def roomMembers (st : ManagerState) (room_id : Nat) : List Nat :=
  (aget st.active_connections room_id).getD []

/-- The room recorded in a websocket's `user_info` metadata, if any. -/
def roomOf (st : ManagerState) (websocket : Nat) : Option Nat :=
  (aget st.user_info websocket).map UserInfo.room_id

theorem roomOf_connect (st : ManagerState) (ws room_id user_id : Nat)
    (username : String) (ws' : Nat) :
    roomOf (connect st ws room_id user_id username) ws' =
      if ws' = ws then some room_id else roomOf st ws' := by
  by_cases h : ws' = ws
  · subst h
    simp [roomOf, connect, aget_aset_self]
  · simp [roomOf, connect, aget_aset_ne _ _ _ _ h, h]

theorem disconnect_user_info (st : ManagerState) (ws ws' : Nat) :
    aget (disconnect st ws).2.user_info ws' =
      if ws' = ws then none else aget st.user_info ws' := by
  match hg : aget st.user_info ws with
  | some user_data =>
      by_cases h : ws' = ws
      · subst h
        simp [disconnect, hg, aget_adel_self]
      · cases hac : aget st.active_connections user_data.room_id with
        | none => simp [disconnect, hg, hac, aget_adel_ne _ _ _ h, h]
        | some conns =>
            by_cases he : conns.erase ws = []
            · simp [disconnect, hg, hac, he, aget_adel_ne _ _ _ h, h]
            · simp [disconnect, hg, hac, he, aget_adel_ne _ _ _ h, h]
  | none =>
      by_cases h : ws' = ws
      · subst h
        simp [disconnect, hg]
      · simp [disconnect, hg, h]

theorem roomOf_disconnect (st : ManagerState) (ws ws' : Nat) :
    roomOf (disconnect st ws).2 ws' =
      if ws' = ws then none else roomOf st ws' := by
  by_cases h : ws' = ws
  · simp [roomOf, disconnect_user_info, h]
  · simp [roomOf, disconnect_user_info, h]

/-! ## Websocket endpoint steps (routes.py) -/

/-- A parsed JSON value, as produced by `json.loads`. -/
inductive JValue where
  | jstr (s : String)
  | jnum (n : Int)
  | jbool (b : Bool)
  | jnull
  | jlist (xs : List JValue)
  | jdict (fields : List (String × JValue))

/-- Field lookup in a parsed JSON object (`json.loads` yields a dict with
unique keys, so first-match lookup is dict lookup). -/
def dictLookup (fields : List (String × JValue)) (k : String) : Option JValue :=
  match fields with
  | [] => none
  | (k', v) :: rest => if k' = k then some v else dictLookup rest k

/-- Python `dict.get(k, default)`. -/
def dictGet (fields : List (String × JValue)) (k : String) (default : JValue) : JValue :=
  (dictLookup fields k).getD default

/-- The characters Python `str.strip()` removes with no argument (the
ASCII whitespace characters; `str.strip` also removes some further
Unicode whitespace code points, which no input considered here
contains). -/
def pyIsSpace (c : Char) : Bool :=
  c = ' ' || c = '\t' || c = '\n' || c = '\r' || c = '\x0b' || c = '\x0c'

/-- Python `s.strip()`: drop leading and trailing whitespace. -/
def pyStrip (s : String) : String :=
  ⟨((s.toList.dropWhile pyIsSpace).reverse.dropWhile pyIsSpace).reverse⟩

/-- `value.strip()` for the value of the `"content"` field: succeeds only
on a string; on any other value Python raises `AttributeError` (caught by
the `except Exception` handler of the endpoint loop). -/
def pyStripValue : JValue → Option String
  | .jstr s => some (pyStrip s)
  | _ => none

/-- Outcome of one iteration of the endpoint's receive loop on a parsed
payload, or of the `WebSocketDisconnect` handler: the session, the
manager state, the sends performed, whether an exception was caught and
logged (line 132-134), and whether the handler closed the connection
(the receive-loop body never does — every exception is either caught or,
for `HTTPException` from a join/leave broadcast, propagates outside the
fragment modelled here). -/
structure StepResult where
  db : DB
  st : ManagerState
  sends : List (Nat × MessageEvent)
  errorLogged : Bool
  connectionClosed : Bool
deriving Repr, DecidableEq

/-- One iteration of the message loop of `websocket_endpoint`
(routes.py lines 104-134) on an already-parsed object payload:
`content = message_data.get("content", "").strip()` (line 111; a
non-string value raises `AttributeError`, caught at line 132); an empty
result is skipped (lines 113-115); otherwise the `message` event is
broadcast (lines 117-130), and an `HTTPException` raised by the broadcast
is caught by the same `except Exception` handler. -/
def handle_chat (env : Env) (db : DB) (st : ManagerState)
    (room_id user_id : Nat) (username timestamp : String)
    (payload : List (String × JValue)) : StepResult :=
  match pyStripValue (dictGet payload "content" (.jstr "")) with
  | none => ⟨db, st, [], true, false⟩
  | some content =>
      if content = "" then ⟨db, st, [], false, false⟩
      else
        match broadcast_to_room env db st room_id user_id
            (.message content user_id username room_id timestamp) with
        | .ok db' st' sends => ⟨db', st', sends, false, false⟩
        | .httpError _ db' st' => ⟨db', st', [], true, false⟩

/-- Outcome of the connection-establishment part of `websocket_endpoint`
(routes.py lines 85-101). -/
inductive JoinResult where
  | joined (db : DB) (st : ManagerState) (sends : List (Nat × MessageEvent))
  | handshakeFailed (db : DB) (st : ManagerState)
  | persistFailed (db : DB) (st : ManagerState)
deriving Repr, DecidableEq

/-- Connection establishment (routes.py lines 85-101): `manager.connect`
(whose first statement, `await websocket.accept()`, may raise — modelled
by `acceptOk`; the exception aborts `connect` before any state mutation
and skips the join broadcast), then `broadcast_to_room` of the
`user_joined` event. -/
def handle_join (acceptOk : Bool) (env : Env) (db : DB) (st : ManagerState)
    (websocket room_id user_id : Nat) (username timestamp : String) : JoinResult :=
  if acceptOk then
    let st1 := connect st websocket room_id user_id username
    match broadcast_to_room env db st1 room_id user_id
        (.user_joined user_id username timestamp (username ++ " joined the room :)")) with
    | .ok db' st' sends => .joined db' st' sends
    | .httpError _ db' st' => .persistFailed db' st'
  else .handshakeFailed db st

/-- The `except WebSocketDisconnect` handler (routes.py lines 136-151):
`manager.disconnect`; if metadata was returned, broadcast the `user_left`
event (with the departed user's id and name from the metadata) to the
endpoint's `room_id`, persisted under the endpoint's `user_id`. -/
def handle_ws_disconnect (env : Env) (db : DB) (st : ManagerState)
    (room_id user_id : Nat) (timestamp : String) (websocket : Nat) :
    DB × ManagerState × List (Nat × MessageEvent) :=
  match disconnect st websocket with
  | (some user_data, st1) =>
      match broadcast_to_room env db st1 room_id user_id
          (.user_left user_data.user_id user_data.username timestamp
            (user_data.username ++ " left the room :(")) with
      | .ok db' st' sends => (db', st', sends)
      | .httpError _ db' st' => (db', st', [])
  | (none, st1) => (db, st1, [])

/-! ## Operation sequences over the manager state -/

/-- A registry operation: one call to `ConnectionManager.connect`
(with the handshake succeeded) or to `ConnectionManager.disconnect`. -/
inductive RegOp where
  | connect (websocket room_id user_id : Nat) (username : String)
  | disconnect (websocket : Nat)
deriving Repr, DecidableEq

/-- Apply one registry operation. -/
def applyRegOp (st : ManagerState) : RegOp → ManagerState
  | .connect ws room_id user_id username => connect st ws room_id user_id username
  | .disconnect ws => (disconnect st ws).2

/-- Apply a sequence of registry operations from a given state. -/
def applyRegOpsFrom (st : ManagerState) (ops : List RegOp) : ManagerState :=
  ops.foldl applyRegOp st

/-- Apply a sequence of registry operations from the initial state. -/
def applyRegOps (ops : List RegOp) : ManagerState :=
  applyRegOpsFrom initialState ops

/-- Whether an operation is a `connect` of the given websocket. -/
def isConnectOf (ws : Nat) : RegOp → Bool
  | .connect ws' _ _ _ => ws' = ws
  | .disconnect _ => false

/-- How many times a sequence calls `connect` on the given websocket. -/
def countConnects (ops : List RegOp) (ws : Nat) : Nat :=
  (ops.filter (isConnectOf ws)).length

/-- Joined and not yet left, read directly off the operation
sequence: the room of the websocket's latest `connect`, cleared by a
subsequent `disconnect`; `acc` carries the answer for the already
already processed part of the list. -/
def currentRoomAux (acc : Option Nat) (ops : List RegOp) (ws : Nat) : Option Nat :=
  match ops with
  | [] => acc
  | .connect ws' r _ _ :: rest => currentRoomAux (if ws' = ws then some r else acc) rest ws
  | .disconnect ws' :: rest => currentRoomAux (if ws' = ws then none else acc) rest ws

/-- The room a websocket has joined and not yet left after a sequence of
operations (none if it never joined, or has left). -/
def currentRoom (ops : List RegOp) (ws : Nat) : Option Nat :=
  currentRoomAux none ops ws

/-- A manager operation, including broadcasts: `broadcast` carries the
failure oracles of its call (`insertFails`: the INSERT raises
`IntegrityError`; `sendFails`: the connections whose `send_json`
raises). -/
inductive Op where
  | connect (websocket room_id user_id : Nat) (username : String)
  | disconnect (websocket : Nat)
  | broadcast (room_id user_id : Nat) (message : MessageEvent)
      (insertFails : Bool) (sendFails : List Nat)
deriving Repr, DecidableEq

/-- Apply one manager operation (broadcasts act on the registry through
`broadcast_to_room`; the database content does not feed back into the
registry state, so a fresh session is passed). -/
def applyOp (st : ManagerState) : Op → ManagerState
  | .connect ws room_id user_id username => connect st ws room_id user_id username
  | .disconnect ws => (disconnect st ws).2
  | .broadcast room_id user_id message insertFails sendFails =>
      (broadcast_to_room ⟨insertFails, fun c => sendFails.contains c⟩ ⟨[]⟩ st
        room_id user_id message).state

/-- Apply a sequence of manager operations from a given state. -/
def applyOpsFrom (st : ManagerState) (ops : List Op) : ManagerState :=
  ops.foldl applyOp st

/-- Apply a sequence of manager operations from the initial state. -/
def applyOps (ops : List Op) : ManagerState :=
  applyOpsFrom initialState ops

/-! ## Characterisation of the operations -/

theorem disconnect_of_absent {st : ManagerState} {ws : Nat}
    (hui : aget st.user_info ws = none) :
    disconnect st ws = (none, st) := by
  simp [disconnect, hui]

theorem disconnect_of_found {st : ManagerState} {ws : Nat} {i : UserInfo}
    {conns : List Nat} (hui : aget st.user_info ws = some i)
    (hac : aget st.active_connections i.room_id = some conns) :
    disconnect st ws =
      (some i,
        ⟨if conns.erase ws = [] then adel st.active_connections i.room_id
          else aset st.active_connections i.room_id (conns.erase ws),
         adel st.user_info ws⟩) := by
  by_cases he : conns.erase ws = []
  · simp [disconnect, hui, hac, he]
  · simp [disconnect, hui, hac, he]

theorem disconnect_of_noroom {st : ManagerState} {ws : Nat} {i : UserInfo}
    (hui : aget st.user_info ws = some i)
    (hac : aget st.active_connections i.room_id = none) :
    disconnect st ws = (some i, ⟨st.active_connections, adel st.user_info ws⟩) := by
  simp [disconnect, hui, hac]

theorem broadcast_of_inactive {env : Env} {db : DB} {st : ManagerState}
    {room_id user_id : Nat} {message : MessageEvent}
    (hac : aget st.active_connections room_id = none) :
    broadcast_to_room env db st room_id user_id message = .ok db st [] := by
  simp [broadcast_to_room, hac]

theorem broadcast_of_insertFails {env : Env} {db : DB} {st : ManagerState}
    {room_id user_id : Nat} {message : MessageEvent} {conns : List Nat}
    (hac : aget st.active_connections room_id = some conns)
    (hif : env.insertFails = true) :
    broadcast_to_room env db st room_id user_id message = .httpError 400 db st := by
  simp [broadcast_to_room, hac, hif]

theorem broadcast_of_ok {env : Env} {db : DB} {st : ManagerState}
    {room_id user_id : Nat} {message : MessageEvent} {conns : List Nat}
    (hac : aget st.active_connections room_id = some conns)
    (hif : env.insertFails = false) :
    broadcast_to_room env db st room_id user_id message =
      .ok ⟨db.rows ++ [⟨jsonDump message, user_id, room_id⟩]⟩
        ((conns.filter (fun c => env.sendFails c)).foldl
          (fun s c => (disconnect s c).2) st)
        ((conns.filter (fun c => !env.sendFails c)).map (fun c => (c, message))) := by
  simp [broadcast_to_room, hac, hif]

/-! ## The registry invariant (§3 of the spec) -/

/-- Well-formedness of the manager state: unique keys in both dicts, each
room's member list duplicate-free and non-empty, and the membership /
metadata bijection — every member of room `r` has metadata pointing to
`r`, and every metadata entry points to a room that lists it. -/
structure Wf (st : ManagerState) : Prop where
  roomsNodup : (st.active_connections.map Prod.fst).Nodup
  infoNodup : (st.user_info.map Prod.fst).Nodup
  connsNodup : ∀ p ∈ st.active_connections, p.2.Nodup
  connsNE : ∀ p ∈ st.active_connections, p.2 ≠ []
  memInfo : ∀ p ∈ st.active_connections, ∀ ws ∈ p.2, roomOf st ws = some p.1
  infoMem : ∀ q ∈ st.user_info, q.1 ∈ roomMembers st q.2.room_id

theorem wf_initial : Wf initialState := by
  refine ⟨?_, ?_, ?_, ?_, ?_, ?_⟩ <;> simp [initialState]

/-- The bijection: a websocket is in room `r`'s member list exactly when
its metadata records room `r`. -/
theorem wf_mem_iff {st : ManagerState} (h : Wf st) (r ws : Nat) :
    ws ∈ roomMembers st r ↔ roomOf st ws = some r := by
  constructor
  · intro hmem
    match hac : aget st.active_connections r with
    | none => simp [roomMembers, hac] at hmem
    | some l =>
        simp only [roomMembers, hac, Option.getD_some] at hmem
        exact h.memInfo (r, l) (aget_some_mem hac) ws hmem
  · intro hro
    match hui : aget st.user_info ws with
    | none => simp [roomOf, hui] at hro
    | some i =>
        simp only [roomOf, hui, Option.map_some'] at hro
        have hmem := h.infoMem (ws, i) (aget_some_mem hui)
        simp only at hmem
        rwa [Option.some_inj.1 hro] at hmem

theorem wf_fresh_not_mem {st : ManagerState} (h : Wf st) {ws : Nat}
    (hfresh : aget st.user_info ws = none) :
    ∀ p ∈ st.active_connections, ws ∉ p.2 := by
  intro p hp hmem
  have := h.memInfo p hp ws hmem
  simp [roomOf, hfresh] at this

/-- `connect` preserves well-formedness when the websocket is fresh
(precondition of §4.1: `join` is called at most once per connection). -/
theorem wf_connect {st : ManagerState} (h : Wf st) {ws : Nat}
    (hfresh : aget st.user_info ws = none) (room_id user_id : Nat)
    (username : String) :
    Wf (connect st ws room_id user_id username) := by
  have hnotin := wf_fresh_not_mem h hfresh
  have hconns : (roomMembers st room_id).Nodup ∧ ws ∉ roomMembers st room_id ∧
      ∀ x ∈ roomMembers st room_id, roomOf st x = some room_id := by
    match hac : aget st.active_connections room_id with
    | none => simp [roomMembers, hac]
    | some l =>
        have hmem := aget_some_mem hac
        refine ⟨?_, ?_, ?_⟩
        · simpa [roomMembers, hac] using h.connsNodup (room_id, l) hmem
        · simpa [roomMembers, hac] using hnotin (room_id, l) hmem
        · intro x hx
          simp only [roomMembers, hac, Option.getD_some] at hx
          exact h.memInfo (room_id, l) hmem x hx
  have hnew : connect st ws room_id user_id username =
      ⟨aset st.active_connections room_id (roomMembers st room_id ++ [ws]),
       aset st.user_info ws ⟨user_id, username, room_id⟩⟩ := rfl
  refine ⟨?_, ?_, ?_, ?_, ?_, ?_⟩
  · rw [hnew]
    exact keys_nodup_aset _ _ h.roomsNodup
  · rw [hnew]
    exact keys_nodup_aset _ _ h.infoNodup
  · rw [hnew]
    intro p hp
    rcases (mem_aset_iff h.roomsNodup).1 hp with hp1 | ⟨hp1, _⟩
    · subst hp1
      simp only [List.nodup_append, List.nodup_cons, List.nodup_nil]
      exact ⟨hconns.1, by simp, by
        intro a ha hb
        simp at hb
        subst hb
        exact hconns.2.1 ha⟩
    · exact h.connsNodup p hp1
  · rw [hnew]
    intro p hp
    rcases (mem_aset_iff h.roomsNodup).1 hp with hp1 | ⟨hp1, _⟩
    · subst hp1
      simp
    · exact h.connsNE p hp1
  · rw [hnew]
    intro p hp x hx
    have hrox : ∀ y, roomOf (connect st ws room_id user_id username) y =
        if y = ws then some room_id else roomOf st y := fun y =>
      roomOf_connect st ws room_id user_id username y
    rcases (mem_aset_iff h.roomsNodup).1 hp with hp1 | ⟨hp1, hpne⟩
    · subst hp1
      simp only at hx
      rcases List.mem_append.1 hx with hx | hx
      · have hxw : x ≠ ws := fun hh => hconns.2.1 (hh ▸ hx)
        rw [← hnew, hrox x, if_neg hxw]
        exact hconns.2.2 x hx
      · simp only [List.mem_singleton] at hx
        subst hx
        rw [← hnew, hrox x, if_pos rfl]
    · have hxw : x ≠ ws := fun hh => hnotin p hp1 (hh ▸ hx)
      rw [← hnew, hrox x, if_neg hxw]
      exact h.memInfo p hp1 x hx
  · rw [hnew]
    intro q hq
    have hrm : ∀ ρ, roomMembers ⟨aset st.active_connections room_id
        (roomMembers st room_id ++ [ws]), aset st.user_info ws
        ⟨user_id, username, room_id⟩⟩ ρ =
        if ρ = room_id then roomMembers st room_id ++ [ws] else roomMembers st ρ := by
      intro ρ
      by_cases hρ : ρ = room_id
      · subst hρ
        simp [roomMembers, aget_aset_self]
      · simp [roomMembers, aget_aset_ne _ _ _ _ hρ, hρ]
    rcases (mem_aset_iff h.infoNodup).1 hq with hq1 | ⟨hq1, hqne⟩
    · subst hq1
      simp only [hrm, if_pos rfl]
      exact List.mem_append_right _ (List.mem_singleton.2 rfl)
    · have := h.infoMem q hq1
      rw [hrm]
      by_cases hρ : q.2.room_id = room_id
      · rw [if_pos hρ]
        exact List.mem_append_left _ (hρ ▸ this)
      · rw [if_neg hρ]
        exact this

/-- `disconnect` preserves well-formedness unconditionally (it is a
no-op on untracked websockets). -/
theorem wf_disconnect {st : ManagerState} (h : Wf st) (ws : Nat) :
    Wf (disconnect st ws).2 := by
  match hui : aget st.user_info ws with
  | none =>
      rw [disconnect_of_absent hui]
      exact h
  | some i =>
      have hiw : (ws, i) ∈ st.user_info := aget_some_mem hui
      have hwm : ws ∈ roomMembers st i.room_id := h.infoMem (ws, i) hiw
      match hac : aget st.active_connections i.room_id with
      | none => simp [roomMembers, hac] at hwm
      | some conns =>
          have hcm : (i.room_id, conns) ∈ st.active_connections := aget_some_mem hac
          have hws_conns : ws ∈ conns := by simpa [roomMembers, hac] using hwm
          have hcn : conns.Nodup := h.connsNodup _ hcm
          have hx_ne : ∀ p ∈ st.active_connections, p.1 ≠ i.room_id →
              ∀ x ∈ p.2, x ≠ ws := by
            intro p hp hpne x hx hxw
            subst hxw
            have h1 := h.memInfo p hp x hx
            have h2 : roomOf st x = some i.room_id := by simp [roomOf, hui]
            rw [h1] at h2
            exact hpne (Option.some_inj.1 h2)
          rw [disconnect_of_found hui hac]
          by_cases he : conns.erase ws = []
          · rw [if_pos he]
            refine ⟨?_, ?_, ?_, ?_, ?_, ?_⟩
            · exact keys_nodup_adel _ h.roomsNodup
            · exact keys_nodup_adel _ h.infoNodup
            · intro p hp
              exact h.connsNodup p (mem_adel.1 hp).1
            · intro p hp
              exact h.connsNE p (mem_adel.1 hp).1
            · intro p hp x hx
              obtain ⟨hp1, hpne⟩ := mem_adel.1 hp
              have hxne : x ≠ ws := hx_ne p hp1 hpne x hx
              have hgx : aget (adel st.user_info ws) x = aget st.user_info x :=
                aget_adel_ne _ _ _ hxne
              have := h.memInfo p hp1 x hx
              simpa [roomOf, hgx] using this
            · intro q hq
              obtain ⟨hq1, hqne⟩ := mem_adel.1 hq
              have hqm := h.infoMem q hq1
              by_cases hρ : q.2.room_id = i.room_id
              · exfalso
                rw [hρ] at hqm
                have : q.1 ∈ conns := by simpa [roomMembers, hac] using hqm
                have : q.1 ∈ conns.erase ws := (List.mem_erase_of_ne hqne).2 this
                rw [he] at this
                simp at this
              · have : aget (adel st.active_connections i.room_id) q.2.room_id =
                    aget st.active_connections q.2.room_id := aget_adel_ne _ _ _ hρ
                simpa [roomMembers, this] using hqm
          · rw [if_neg he]
            refine ⟨?_, ?_, ?_, ?_, ?_, ?_⟩
            · exact keys_nodup_aset _ _ h.roomsNodup
            · exact keys_nodup_adel _ h.infoNodup
            · intro p hp
              rcases (mem_aset_iff h.roomsNodup).1 hp with hp1 | ⟨hp1, _⟩
              · subst hp1
                exact hcn.erase _
              · exact h.connsNodup p hp1
            · intro p hp
              rcases (mem_aset_iff h.roomsNodup).1 hp with hp1 | ⟨hp1, _⟩
              · subst hp1
                exact he
              · exact h.connsNE p hp1
            · intro p hp x hx
              rcases (mem_aset_iff h.roomsNodup).1 hp with hp1 | ⟨hp1, hpne⟩
              · subst hp1
                simp only at hx
                obtain ⟨hxne, hxc⟩ := (hcn.mem_erase_iff).1 hx
                have hgx : aget (adel st.user_info ws) x = aget st.user_info x :=
                  aget_adel_ne _ _ _ hxne
                have := h.memInfo (i.room_id, conns) hcm x hxc
                simpa [roomOf, hgx] using this
              · have hxne : x ≠ ws := hx_ne p hp1 hpne x hx
                have hgx : aget (adel st.user_info ws) x = aget st.user_info x :=
                  aget_adel_ne _ _ _ hxne
                have := h.memInfo p hp1 x hx
                simpa [roomOf, hgx] using this
            · intro q hq
              obtain ⟨hq1, hqne⟩ := mem_adel.1 hq
              have hqm := h.infoMem q hq1
              by_cases hρ : q.2.room_id = i.room_id
              · rw [hρ] at hqm
                have hqc : q.1 ∈ conns := by simpa [roomMembers, hac] using hqm
                have hqe : q.1 ∈ conns.erase ws := (List.mem_erase_of_ne hqne).2 hqc
                rw [hρ]
                simpa [roomMembers, aget_aset_self] using hqe
              · have : aget (aset st.active_connections i.room_id (conns.erase ws))
                    q.2.room_id = aget st.active_connections q.2.room_id :=
                  aget_aset_ne _ _ _ _ hρ
                simpa [roomMembers, this] using hqm

theorem wf_foldl_disconnect {st : ManagerState} (h : Wf st) (l : List Nat) :
    Wf (l.foldl (fun s c => (disconnect s c).2) st) := by
  induction l generalizing st with
  | nil => exact h
  | cons c rest ih => exact ih (wf_disconnect h c)

theorem wf_broadcast {env : Env} {db : DB} {st : ManagerState}
    {room_id user_id : Nat} {message : MessageEvent} (h : Wf st) :
    Wf (broadcast_to_room env db st room_id user_id message).state := by
  match hac : aget st.active_connections room_id with
  | none =>
      rw [broadcast_of_inactive hac]
      exact h
  | some conns =>
      cases hif : env.insertFails
      · rw [broadcast_of_ok hac hif]
        exact wf_foldl_disconnect h _
      · rw [broadcast_of_insertFails hac hif]
        exact h

/-! ## No empty room persists (unconditional invariant, for C6) -/

/-- Every room entry holds a non-empty member list. -/
def NonemptyRooms (st : ManagerState) : Prop :=
  ∀ p ∈ st.active_connections, p.2 ≠ []

theorem nonempty_connect {st : ManagerState} (h : NonemptyRooms st)
    (ws room_id user_id : Nat) (username : String) :
    NonemptyRooms (connect st ws room_id user_id username) := by
  intro p hp
  rcases mem_aset hp with hp1 | hp1
  · subst hp1
    simp
  · exact h p hp1

theorem nonempty_disconnect {st : ManagerState} (h : NonemptyRooms st)
    (ws : Nat) : NonemptyRooms (disconnect st ws).2 := by
  match hui : aget st.user_info ws with
  | none =>
      rw [disconnect_of_absent hui]
      exact h
  | some i =>
      match hac : aget st.active_connections i.room_id with
      | none =>
          rw [disconnect_of_noroom hui hac]
          exact h
      | some conns =>
          rw [disconnect_of_found hui hac]
          by_cases he : conns.erase ws = []
          · rw [if_pos he]
            intro p hp
            exact h p (mem_adel.1 hp).1
          · rw [if_neg he]
            intro p hp
            rcases mem_aset hp with hp1 | hp1
            · subst hp1
              exact he
            · exact h p hp1

theorem nonempty_foldl_disconnect {st : ManagerState} (h : NonemptyRooms st)
    (l : List Nat) : NonemptyRooms (l.foldl (fun s c => (disconnect s c).2) st) := by
  induction l generalizing st with
  | nil => exact h
  | cons c rest ih => exact ih (nonempty_disconnect h c)

theorem nonempty_broadcast {env : Env} {db : DB} {st : ManagerState}
    {room_id user_id : Nat} {message : MessageEvent} (h : NonemptyRooms st) :
    NonemptyRooms (broadcast_to_room env db st room_id user_id message).state := by
  match hac : aget st.active_connections room_id with
  | none =>
      rw [broadcast_of_inactive hac]
      exact h
  | some conns =>
      cases hif : env.insertFails
      · rw [broadcast_of_ok hac hif]
        exact nonempty_foldl_disconnect h _
      · rw [broadcast_of_insertFails hac hif]
        exact h

theorem nonempty_applyOpsFrom (ops : List Op) (st : ManagerState)
    (h : NonemptyRooms st) : NonemptyRooms (applyOpsFrom st ops) := by
  induction ops generalizing st with
  | nil => exact h
  | cons op rest ih =>
      cases op with
      | connect ws room_id user_id username =>
          exact ih _ (nonempty_connect h ws room_id user_id username)
      | disconnect ws => exact ih _ (nonempty_disconnect h ws)
      | broadcast room_id user_id message insertFails sendFails =>
          exact ih _ (nonempty_broadcast h)

/-! ## Connect-at-most-once sequences preserve well-formedness (for C3) -/

theorem countConnects_cons_connect (ws room_id user_id : Nat) (username : String)
    (rest : List RegOp) (ws' : Nat) :
    countConnects (RegOp.connect ws room_id user_id username :: rest) ws' =
      (if ws = ws' then 1 else 0) + countConnects rest ws' := by
  by_cases h : ws = ws'
  · simp [countConnects, List.filter_cons, isConnectOf, h, Nat.add_comm]
  · simp [countConnects, List.filter_cons, isConnectOf, h]

theorem countConnects_cons_disconnect (ws : Nat) (rest : List RegOp) (ws' : Nat) :
    countConnects (RegOp.disconnect ws :: rest) ws' = countConnects rest ws' := by
  simp [countConnects, List.filter_cons, isConnectOf]

theorem countConnects_pos_of_mem {ops : List RegOp} {ws room_id user_id : Nat}
    {username : String} (h : RegOp.connect ws room_id user_id username ∈ ops) :
    1 ≤ countConnects ops ws := by
  have hmem : RegOp.connect ws room_id user_id username ∈
      ops.filter (isConnectOf ws) := by
    rw [List.mem_filter]
    exact ⟨h, by simp [isConnectOf]⟩
  have := List.length_pos.2 (List.ne_nil_of_mem hmem)
  simpa [countConnects] using this

/-- Main induction for the bijection invariant: starting from a
well-formed state in which every websocket that the remaining operations
will connect is still untracked, and with at most one connect per
websocket, the state stays well-formed. -/
theorem wf_applyRegOpsFrom (ops : List RegOp) (st : ManagerState) (h : Wf st)
    (hfresh : ∀ ws room_id user_id username,
      RegOp.connect ws room_id user_id username ∈ ops → aget st.user_info ws = none)
    (honce : ∀ ws, countConnects ops ws ≤ 1) :
    Wf (applyRegOpsFrom st ops) := by
  induction ops generalizing st with
  | nil => exact h
  | cons op rest ih =>
      cases op with
      | connect ws room_id user_id username =>
          have hf : aget st.user_info ws = none :=
            hfresh ws room_id user_id username (List.mem_cons_self _ _)
          have h' : Wf (connect st ws room_id user_id username) :=
            wf_connect h hf room_id user_id username
          refine ih _ h' ?_ ?_
          · intro ws' r' u' n' hmem
            show aget (connect st ws room_id user_id username).user_info ws' = none
            have hne : ws' ≠ ws := by
              intro hww
              subst hww
              have h1 : 1 ≤ countConnects rest ws' := countConnects_pos_of_mem hmem
              have h2 := honce ws'
              rw [countConnects_cons_connect, if_pos rfl] at h2
              omega
            have hold : aget st.user_info ws' = none :=
              hfresh ws' r' u' n' (List.mem_cons_of_mem _ hmem)
            have : aget (connect st ws room_id user_id username).user_info ws' =
                aget st.user_info ws' := aget_aset_ne _ _ _ _ hne
            rw [this, hold]
          · intro ws'
            have h2 := honce ws'
            rw [countConnects_cons_connect] at h2
            omega
      | disconnect ws =>
          refine ih _ (wf_disconnect h ws) ?_ ?_
          · intro ws' r' u' n' hmem
            show aget (disconnect st ws).2.user_info ws' = none
            have hold : aget st.user_info ws' = none :=
              hfresh ws' r' u' n' (List.mem_cons_of_mem _ hmem)
            rw [disconnect_user_info]
            by_cases hww : ws' = ws
            · rw [if_pos hww]
            · rw [if_neg hww]
              exact hold
          · intro ws'
            have h2 := honce ws'
            rwa [countConnects_cons_disconnect] at h2

/-- Well-formedness of every state reachable by a connect-at-most-once
sequence of registry operations. -/
theorem wf_applyRegOps (ops : List RegOp)
    (honce : ∀ ws, countConnects ops ws ≤ 1) : Wf (applyRegOps ops) :=
  wf_applyRegOpsFrom ops initialState wf_initial
    (fun _ _ _ _ _ => rfl) honce

/-! ## The registry agrees with "joined and not yet left" -/

theorem roomOf_applyRegOpsFrom (ops : List RegOp) (st : ManagerState) (ws : Nat) :
    roomOf (applyRegOpsFrom st ops) ws = currentRoomAux (roomOf st ws) ops ws := by
  induction ops generalizing st with
  | nil => rfl
  | cons op rest ih =>
      cases op with
      | connect ws' r u n =>
          have h1 : applyRegOpsFrom st (RegOp.connect ws' r u n :: rest) =
              applyRegOpsFrom (connect st ws' r u n) rest := rfl
          rw [h1, ih]
          have h2 : roomOf (connect st ws' r u n) ws =
              if ws' = ws then some r else roomOf st ws := by
            rw [roomOf_connect]
            by_cases hww : ws = ws'
            · simp [hww]
            · have hww' : ¬ (ws' = ws) := fun hh => hww hh.symm
              simp [hww, hww']
          rw [h2]
          rfl
      | disconnect ws' =>
          have h1 : applyRegOpsFrom st (RegOp.disconnect ws' :: rest) =
              applyRegOpsFrom (disconnect st ws').2 rest := rfl
          rw [h1, ih]
          have h2 : roomOf (disconnect st ws').2 ws =
              if ws' = ws then none else roomOf st ws := by
            rw [roomOf_disconnect]
            by_cases hww : ws = ws'
            · simp [hww]
            · have hww' : ¬ (ws' = ws) := fun hh => hww hh.symm
              simp [hww, hww']
          rw [h2]
          rfl

theorem roomOf_eq_currentRoom (ops : List RegOp) (ws : Nat) :
    roomOf (applyRegOps ops) ws = currentRoom ops ws := by
  have := roomOf_applyRegOpsFrom ops initialState ws
  simpa [applyRegOps, currentRoom, roomOf, initialState, aget] using this

/-! ## Single send failure during fan-out -/

theorem filter_eq_singleton_of_nodup {l : List Nat} {a : Nat}
    (hnd : l.Nodup) (ha : a ∈ l) : l.filter (fun c => c == a) = [a] := by
  induction l with
  | nil => simp at ha
  | cons b rest ih =>
      rw [List.nodup_cons] at hnd
      rcases List.mem_cons.1 ha with ha | ha
      · subst ha
        have hrest : rest.filter (fun c => c == a) = [] := by
          apply List.filter_eq_nil_iff.2
          intro c hc
          simp only [beq_iff_eq]
          intro hcb
          subst hcb
          exact hnd.1 hc
        simp [List.filter_cons, hrest]
      · have hba : ¬ (b == a) = true := by
          simp only [beq_iff_eq]
          intro hba
          subst hba
          exact hnd.1 ha
        simp [List.filter_cons, hba, ih hnd.2 ha]

/-- Full characterisation of `broadcast_to_room` on a well-formed state
when exactly one member's send fails and persistence succeeds: the row is
committed, every other member is sent the event in list order, and the
failing connection alone is disconnected afterwards. -/
theorem broadcast_one_fail {env : Env} {db : DB} {st : ManagerState}
    {room_id user_id : Nat} {message : MessageEvent} {conns : List Nat} {ws : Nat}
    (hwf : Wf st)
    (hac : aget st.active_connections room_id = some conns)
    (hws : ws ∈ conns)
    (hfail : env.sendFails ws = true)
    (hothers : ∀ c ∈ conns, c ≠ ws → env.sendFails c = false)
    (hif : env.insertFails = false) :
    broadcast_to_room env db st room_id user_id message =
      .ok ⟨db.rows ++ [⟨jsonDump message, user_id, room_id⟩]⟩ (disconnect st ws).2
        ((conns.filter (fun c => c != ws)).map (fun c => (c, message))) ∧
    ws ∉ roomMembers (disconnect st ws).2 room_id ∧
    aget (disconnect st ws).2.user_info ws = none ∧
    roomOf st ws = some room_id := by
  have hnd : conns.Nodup := hwf.connsNodup (room_id, conns) (aget_some_mem hac)
  have hmemr : ws ∈ roomMembers st room_id := by simp [roomMembers, hac, hws]
  have hro : roomOf st ws = some room_id := (wf_mem_iff hwf room_id ws).1 hmemr
  obtain ⟨i, hui, hiroom⟩ := Option.map_eq_some'.1 hro
  have hfs : conns.filter (fun c => !env.sendFails c) =
      conns.filter (fun c => c != ws) := by
    apply List.filter_congr
    intro c hc
    by_cases hcw : c = ws
    · subst hcw
      simp [hfail]
    · simp [hothers c hc hcw, bne_iff_ne, hcw]
  have hff : conns.filter (fun c => env.sendFails c) = [ws] := by
    have h1 : conns.filter (fun c => env.sendFails c) =
        conns.filter (fun c => c == ws) := by
      apply List.filter_congr
      intro c hc
      by_cases hcw : c = ws
      · subst hcw
        simp [hfail]
      · simp [hothers c hc hcw, hcw]
    rw [h1]
    exact filter_eq_singleton_of_nodup hnd hws
  have hbc : broadcast_to_room env db st room_id user_id message =
      .ok ⟨db.rows ++ [⟨jsonDump message, user_id, room_id⟩]⟩ (disconnect st ws).2
        ((conns.filter (fun c => c != ws)).map (fun c => (c, message))) := by
    rw [broadcast_of_ok hac hif, hfs, hff]
    rfl
  have hacr : aget st.active_connections i.room_id = some conns := by
    rw [hiroom]
    exact hac
  have hdis := disconnect_of_found hui hacr
  refine ⟨hbc, ?_, ?_, hro⟩
  · rw [hdis]
    by_cases he : conns.erase ws = []
    · rw [if_pos he] at *
      simp only [roomMembers]
      rw [← hiroom, aget_adel_self]
      simp
    · rw [if_neg he] at *
      simp only [roomMembers]
      rw [← hiroom, aget_aset_self]
      simp only [Option.getD_some]
      intro hmem
      exact absurd rfl (hnd.mem_erase_iff.1 hmem).1
  · rw [hdis]
    exact aget_adel_self _ _

/-! ## Shared concrete inputs for the witnesses -/

/-- An environment in which nothing fails. -/
def envOk : Env := ⟨false, fun _ => false⟩

/-- An environment in which the INSERT raises `IntegrityError`. -/
def envInsertFails : Env := ⟨true, fun _ => false⟩

/-- An environment in which `send_json` raises exactly for websocket 1. -/
def envFail1 : Env := ⟨false, fun c => c == 1⟩

/-- An empty database session. -/
def dbEmpty : DB := ⟨[]⟩

/-- Room 5 containing websocket 0 (user 1 "alice") and websocket 1
(user 2 "bob"), joined in that order. -/
def stAB : ManagerState := connect (connect initialState 0 5 1 "alice") 1 5 2 "bob"

/-! ## The claims -/

/-- Claim C1: For every call to `broadcast_to_room` on a room with at least one
active connection, if the database insert of the message fails
(`IntegrityError`), then zero connections receive the event, the
transaction is rolled back (no message row is added), and the failure is
reported to the caller as an HTTP 400 error; no send is ever attempted
for an unpersisted message. -/
theorem C1_insert_failure_no_send (env : Env) (db : DB) (st : ManagerState)
    (room_id user_id : Nat) (message : MessageEvent) (conns : List Nat)
    (hac : aget st.active_connections room_id = some conns)
    (hne : conns ≠ [])
    (hif : env.insertFails = true) :
    broadcast_to_room env db st room_id user_id message = .httpError 400 db st ∧
    (broadcast_to_room env db st room_id user_id message).sends = [] := by
  have h := @broadcast_of_insertFails env db st room_id user_id message conns hac hif
  refine ⟨h, ?_⟩
  rw [h]
  rfl

/-- Witness for C1: a room with one member, a failing insert. -/
theorem C1_witness :
    aget stAB.active_connections 5 = some [0, 1] ∧
    broadcast_to_room envInsertFails dbEmpty stAB 5 1
        (.message "hi" 1 "alice" 5 "T") = .httpError 400 dbEmpty stAB ∧
    (broadcast_to_room envInsertFails dbEmpty stAB 5 1
        (.message "hi" 1 "alice" 5 "T")).sends = [] :=
  ⟨rfl,
    C1_insert_failure_no_send envInsertFails dbEmpty stAB 5 1
      (.message "hi" 1 "alice" 5 "T") [0, 1] rfl (by decide) rfl⟩

/-- Claim C6: After every finite sequence of `connect`, `disconnect` and
`broadcast_to_room` operations, every room present as a key of
`active_connections` maps to a non-empty member list (the last leaving
member's `disconnect` deletes the room's entry). -/
theorem C6_no_empty_rooms (ops : List Op) (room_id : Nat) (l : List Nat)
    (h : aget (applyOps ops).active_connections room_id = some l) : l ≠ [] := by
  have hne : NonemptyRooms (applyOps ops) := by
    apply nonempty_applyOpsFrom
    intro p hp
    simp [initialState] at hp
  exact hne (room_id, l) (aget_some_mem h)

/-- Witness for C6: a concrete sequence ending in a broadcast with a
failing send, after which room 5 still maps to a non-empty list. -/
theorem C6_witness :
    aget (applyOps [Op.connect 0 5 1 "alice", Op.connect 1 5 2 "bob",
        Op.broadcast 5 1 (.message "hi" 1 "alice" 5 "T") false [1]]).active_connections
      5 = some [0] ∧ ([0] : List Nat) ≠ [] :=
  ⟨by decide,
    C6_no_empty_rooms [Op.connect 0 5 1 "alice", Op.connect 1 5 2 "bob",
        Op.broadcast 5 1 (.message "hi" 1 "alice" 5 "T") false [1]] 5 [0] (by decide)⟩

/-- Claim C7: For every websocket with no `user_info` entry (never joined, or
already removed), `disconnect` returns `None` and leaves
`active_connections` and `user_info` completely unchanged — so a second
`disconnect` on the same connection is a no-op, not an error. -/
theorem C7_disconnect_untracked_noop (st : ManagerState) (ws : Nat)
    (h : aget st.user_info ws = none) :
    disconnect st ws = (none, st) :=
  disconnect_of_absent h

/-- Witness for C7: a double disconnect — websocket 1 is disconnected
once (removing its entry), and the second call is a no-op. -/
theorem C7_witness :
    aget (disconnect stAB 1).2.user_info 1 = none ∧
    disconnect (disconnect stAB 1).2 1 = (none, (disconnect stAB 1).2) :=
  ⟨by decide, C7_disconnect_untracked_noop (disconnect stAB 1).2 1 (by decide)⟩

/-- Claim C8: For every `connect` call in which the transport handshake
(`websocket.accept()`) fails, no membership is recorded and no metadata
is stored — `active_connections` and `user_info` are unchanged — and no
`Joined` event is persisted or broadcast. -/
theorem C8_handshake_failure_no_mutation (env : Env) (db : DB) (st : ManagerState)
    (websocket room_id user_id : Nat) (username timestamp : String) :
    handle_join false env db st websocket room_id user_id username timestamp =
      .handshakeFailed db st :=
  rfl

/-- Claim C10: For every `broadcast_to_room` call whose room has no entry in
`active_connections`, the call is a complete no-op: no row persisted,
nothing sent, no error raised, registry state unchanged. -/
theorem C10_inactive_room_noop (env : Env) (db : DB) (st : ManagerState)
    (room_id user_id : Nat) (message : MessageEvent)
    (h : aget st.active_connections room_id = none) :
    broadcast_to_room env db st room_id user_id message = .ok db st [] :=
  broadcast_of_inactive h

/-- Witness for C10: the `user_left` event of room 5's last departing
member is dropped entirely — after both members leave, a broadcast to
room 5 changes nothing. -/
theorem C10_witness :
    aget ((disconnect (disconnect stAB 1).2 0).2).active_connections 5 = none ∧
    broadcast_to_room envOk dbEmpty ((disconnect (disconnect stAB 1).2 0).2) 5 2
        (.user_left 2 "bob" "T" "bob left the room :(") =
      .ok dbEmpty ((disconnect (disconnect stAB 1).2 0).2) [] :=
  ⟨by decide,
    C10_inactive_room_noop envOk dbEmpty ((disconnect (disconnect stAB 1).2 0).2) 5 2
      (.user_left 2 "bob" "T" "bob left the room :(") (by decide)⟩

theorem countConnects_nil (ws : Nat) : countConnects [] ws = 0 := rfl

/-- Claim C2: For every inbound payload on an open chat connection whose
`"content"` field is missing, non-string, empty, or whitespace-only after
trimming, the message-handling step persists nothing, broadcasts nothing,
raises no error to the client, and leaves the connection open. -/
theorem C2_blank_content_ignored (env : Env) (db : DB) (st : ManagerState)
    (room_id user_id : Nat) (username timestamp : String)
    (payload : List (String × JValue))
    (h : dictLookup payload "content" = none ∨
      (∀ s, dictLookup payload "content" ≠ some (JValue.jstr s)) ∨
      (∃ s, dictLookup payload "content" = some (JValue.jstr s) ∧ pyStrip s = "")) :
    (handle_chat env db st room_id user_id username timestamp payload).db = db ∧
    (handle_chat env db st room_id user_id username timestamp payload).st = st ∧
    (handle_chat env db st room_id user_id username timestamp payload).sends = [] ∧
    (handle_chat env db st room_id user_id username timestamp payload).connectionClosed
      = false := by
  have hempty : pyStrip "" = "" := rfl
  rcases h with h | h | h
  · have h1 : dictGet payload "content" (.jstr "") = .jstr "" := by
      simp [dictGet, h]
    simp [handle_chat, h1, pyStripValue, hempty]
  · cases hlook : dictLookup payload "content" with
    | none =>
        have h1 : dictGet payload "content" (.jstr "") = .jstr "" := by
          simp [dictGet, hlook]
        simp [handle_chat, h1, pyStripValue, hempty]
    | some v =>
        cases v with
        | jstr s => exact absurd hlook (h s)
        | jnum n => simp [handle_chat, dictGet, hlook, pyStripValue]
        | jbool b => simp [handle_chat, dictGet, hlook, pyStripValue]
        | jnull => simp [handle_chat, dictGet, hlook, pyStripValue]
        | jlist xs => simp [handle_chat, dictGet, hlook, pyStripValue]
        | jdict fields => simp [handle_chat, dictGet, hlook, pyStripValue]
  · obtain ⟨s, hlook, hs⟩ := h
    have h1 : dictGet payload "content" (.jstr "") = .jstr s := by
      simp [dictGet, hlook]
    simp [handle_chat, h1, pyStripValue, hs]

/-- Witness for C2: a whitespace-only message is dropped without any
effect. -/
theorem C2_witness :
    (handle_chat envOk dbEmpty stAB 5 1 "alice" "T"
      [("content", JValue.jstr "   ")]).db = dbEmpty ∧
    (handle_chat envOk dbEmpty stAB 5 1 "alice" "T"
      [("content", JValue.jstr "   ")]).st = stAB ∧
    (handle_chat envOk dbEmpty stAB 5 1 "alice" "T"
      [("content", JValue.jstr "   ")]).sends = [] ∧
    (handle_chat envOk dbEmpty stAB 5 1 "alice" "T"
      [("content", JValue.jstr "   ")]).connectionClosed = false :=
  C2_blank_content_ignored envOk dbEmpty stAB 5 1 "alice" "T"
    [("content", JValue.jstr "   ")] (Or.inr (Or.inr ⟨"   ", rfl, rfl⟩))

/-- Claim C3: Under the precondition that `connect` is called at most once per
websocket, after every finite sequence of `connect` and `disconnect`
operations, a websocket is an element of room `r`'s list in
`active_connections` iff it has a `user_info` entry whose `room_id`
equals `r`, and every room's member list consists exactly of the
websockets that have joined that room and not yet left. -/
theorem C3_registry_bijection (ops : List RegOp)
    (honce : ∀ ws, countConnects ops ws ≤ 1) (r ws : Nat) :
    (ws ∈ roomMembers (applyRegOps ops) r ↔
      (∃ i, aget (applyRegOps ops).user_info ws = some i ∧ i.room_id = r)) ∧
    (ws ∈ roomMembers (applyRegOps ops) r ↔ currentRoom ops ws = some r) := by
  have hwf := wf_applyRegOps ops honce
  have h1 := wf_mem_iff hwf r ws
  have h2 := roomOf_eq_currentRoom ops ws
  constructor
  · rw [h1]
    simp [roomOf, Option.map_eq_some']
  · rw [h1, h2]

/-- Witness for C3: alice and bob join room 5, bob leaves; alice is a
member iff her metadata says room 5 iff she has joined and not left. -/
theorem C3_witness :
    (0 ∈ roomMembers (applyRegOps [RegOp.connect 0 5 1 "alice",
        RegOp.connect 1 5 2 "bob", RegOp.disconnect 1]) 5 ↔
      (∃ i, aget (applyRegOps [RegOp.connect 0 5 1 "alice",
          RegOp.connect 1 5 2 "bob", RegOp.disconnect 1]).user_info 0 = some i ∧
        i.room_id = 5)) ∧
    (0 ∈ roomMembers (applyRegOps [RegOp.connect 0 5 1 "alice",
        RegOp.connect 1 5 2 "bob", RegOp.disconnect 1]) 5 ↔
      currentRoom [RegOp.connect 0 5 1 "alice", RegOp.connect 1 5 2 "bob",
        RegOp.disconnect 1] 0 = some 5) :=
  C3_registry_bijection
    [RegOp.connect 0 5 1 "alice", RegOp.connect 1 5 2 "bob", RegOp.disconnect 1]
    (by
      intro ws
      rw [countConnects_cons_connect, countConnects_cons_connect,
        countConnects_cons_disconnect, countConnects_nil]
      split_ifs <;> omega) 5 0

/-- Claim C4: For every broadcast to a room in which exactly one member's send
fails and persistence succeeds, each of the other members receives the
message in order (the fan-out loop is not aborted), and afterwards the
failing connection has been removed from the room's member list and from
`user_info`. -/
theorem C4_one_send_failure (env : Env) (db : DB) (st : ManagerState)
    (room_id user_id : Nat) (message : MessageEvent) (conns : List Nat) (ws : Nat)
    (hwf : Wf st)
    (hac : aget st.active_connections room_id = some conns)
    (hws : ws ∈ conns)
    (hfail : env.sendFails ws = true)
    (hothers : ∀ c ∈ conns, c ≠ ws → env.sendFails c = false)
    (hif : env.insertFails = false) :
    broadcast_to_room env db st room_id user_id message =
      .ok ⟨db.rows ++ [⟨jsonDump message, user_id, room_id⟩]⟩ (disconnect st ws).2
        ((conns.filter (fun c => c != ws)).map (fun c => (c, message))) ∧
    ws ∉ roomMembers (disconnect st ws).2 room_id ∧
    aget (disconnect st ws).2.user_info ws = none := by
  have h := @broadcast_one_fail env db st room_id user_id message conns ws
    hwf hac hws hfail hothers hif
  exact ⟨h.1, h.2.1, h.2.2.1⟩

theorem wf_stAB : Wf stAB :=
  ⟨by decide, by decide, by decide, by decide, by decide, by decide⟩

/-- Witness for C4: bob's send fails; alice still receives the message
and bob is removed from room and metadata. -/
theorem C4_witness :
    broadcast_to_room envFail1 dbEmpty stAB 5 1 (.message "hi" 1 "alice" 5 "T") =
      .ok ⟨[⟨jsonDump (.message "hi" 1 "alice" 5 "T"), 1, 5⟩]⟩ (disconnect stAB 1).2
        [(0, .message "hi" 1 "alice" 5 "T")] ∧
    1 ∉ roomMembers (disconnect stAB 1).2 5 ∧
    aget (disconnect stAB 1).2.user_info 1 = none :=
  C4_one_send_failure envFail1 dbEmpty stAB 5 1 (.message "hi" 1 "alice" 5 "T")
    [0, 1] 1 wf_stAB rfl (by decide) rfl (by decide) rfl

/-- Claim C5 (amended): For every connection removed because its send failed
during fan-out, the registry-level `disconnect` performed by the cleanup
loop finds the session metadata still present and removes the connection
from its room and from `user_info`, but its return value is discarded —
no `user_left` event is persisted or broadcast for that connection, and
the connection's own disconnect handler subsequently finds no metadata
and emits nothing. -/
theorem C5_send_failure_silent_removal (env : Env) (db : DB) (st : ManagerState)
    (room_id user_id : Nat) (message : MessageEvent) (conns : List Nat) (ws : Nat)
    (timestamp : String)
    (hwf : Wf st)
    (hac : aget st.active_connections room_id = some conns)
    (hws : ws ∈ conns)
    (hfail : env.sendFails ws = true)
    (hothers : ∀ c ∈ conns, c ≠ ws → env.sendFails c = false)
    (hif : env.insertFails = false)
    (hmsg : message.isUserLeft = false) :
    roomOf st ws = some room_id ∧
    (broadcast_to_room env db st room_id user_id message).sends.filter
      (fun p => p.2.isUserLeft) = [] ∧
    (broadcast_to_room env db st room_id user_id message).db.rows =
      db.rows ++ [⟨jsonDump message, user_id, room_id⟩] ∧
    handle_ws_disconnect env
        (broadcast_to_room env db st room_id user_id message).db
        (broadcast_to_room env db st room_id user_id message).state
        room_id user_id timestamp ws =
      ((broadcast_to_room env db st room_id user_id message).db,
        (broadcast_to_room env db st room_id user_id message).state, []) := by
  obtain ⟨hbc, hnotm, hnone, hro⟩ := broadcast_one_fail hwf hac hws hfail hothers hif
  refine ⟨hro, ?_, ?_, ?_⟩
  · rw [hbc]
    simp only [BroadcastResult.sends]
    apply List.filter_eq_nil_iff.2
    intro x hx
    rcases List.mem_map.1 hx with ⟨c, hc, hcx⟩
    rw [← hcx]
    simp [hmsg]
  · rw [hbc]
    rfl
  · rw [hbc]
    simp only [BroadcastResult.db, BroadcastResult.state]
    have hd := disconnect_of_absent hnone
    simp [handle_ws_disconnect, hd]

/-- Counterexample for C5 as stated: in room 5 = \x7balice, bob\x7d, bob's
send fails during the broadcast of alice's chat message.  Bob's metadata
was present (`roomOf stAB 1 = some 5`), yet the sends of the broadcast
contain no `user_left` event, the only row persisted is the chat row,
and the subsequent `WebSocketDisconnect` handling for bob sends and
persists nothing (metadata already gone) — no `Left` event is ever
persisted or broadcast for bob. -/
theorem C5_counterexample :
    roomOf stAB 1 = some 5 ∧
    (broadcast_to_room envFail1 dbEmpty stAB 5 1
      (.message "hi" 1 "alice" 5 "T")).sends = [(0, .message "hi" 1 "alice" 5 "T")] ∧
    (broadcast_to_room envFail1 dbEmpty stAB 5 1
      (.message "hi" 1 "alice" 5 "T")).db.rows =
      [⟨jsonDump (.message "hi" 1 "alice" 5 "T"), 1, 5⟩] ∧
    handle_ws_disconnect envFail1
        (broadcast_to_room envFail1 dbEmpty stAB 5 1 (.message "hi" 1 "alice" 5 "T")).db
        (broadcast_to_room envFail1 dbEmpty stAB 5 1 (.message "hi" 1 "alice" 5 "T")).state
        5 1 "T2" 1 =
      ((broadcast_to_room envFail1 dbEmpty stAB 5 1 (.message "hi" 1 "alice" 5 "T")).db,
        (broadcast_to_room envFail1 dbEmpty stAB 5 1 (.message "hi" 1 "alice" 5 "T")).state,
        []) :=
  ⟨rfl, rfl, rfl, rfl⟩

/-- Witness for the amended C5: bob's metadata is present when his send
fails, yet the broadcast and the follow-up disconnect handling emit no
`user_left` event and persist only the chat row. -/
theorem C5_witness :
    roomOf stAB 1 = some 5 ∧
    (broadcast_to_room envFail1 dbEmpty stAB 5 1
      (.message "hi" 1 "alice" 5 "T")).sends.filter
        (fun p => p.2.isUserLeft) = [] ∧
    (broadcast_to_room envFail1 dbEmpty stAB 5 1
      (.message "hi" 1 "alice" 5 "T")).db.rows =
      dbEmpty.rows ++ [⟨jsonDump (.message "hi" 1 "alice" 5 "T"), 1, 5⟩] ∧
    handle_ws_disconnect envFail1
        (broadcast_to_room envFail1 dbEmpty stAB 5 1 (.message "hi" 1 "alice" 5 "T")).db
        (broadcast_to_room envFail1 dbEmpty stAB 5 1 (.message "hi" 1 "alice" 5 "T")).state
        5 1 "T2" 1 =
      ((broadcast_to_room envFail1 dbEmpty stAB 5 1 (.message "hi" 1 "alice" 5 "T")).db,
        (broadcast_to_room envFail1 dbEmpty stAB 5 1 (.message "hi" 1 "alice" 5 "T")).state,
        []) :=
  C5_send_failure_silent_removal envFail1 dbEmpty stAB 5 1
    (.message "hi" 1 "alice" 5 "T") [0, 1] 1 "T2" wf_stAB rfl (by decide) rfl
    (by decide) rfl rfl

/-- Claim C9 (amended): in the state where room 5 contains A (websocket 0,
user 1, "alice") and B (websocket 1, user 2, "bob"), processing A's
payload with content "hi" persists exactly one message row with
`room_id` 5 and `user_id` 1 whose `content` column holds the JSON
serialisation of the outbound `message` event (whose embedded content
field is "hi"), not the bare string "hi"; and both A and B receive that
single `message` event with content "hi", user_id 1, username "alice",
room_id 5. -/
theorem C9_scenario (timestamp : String) :
    handle_chat envOk dbEmpty stAB 5 1 "alice" timestamp
        [("content", JValue.jstr "hi")] =
      ⟨⟨[⟨jsonDump (.message "hi" 1 "alice" 5 timestamp), 1, 5⟩]⟩, stAB,
        [(0, .message "hi" 1 "alice" 5 timestamp),
          (1, .message "hi" 1 "alice" 5 timestamp)],
        false, false⟩ :=
  rfl

/-- Counterexample for C9 as stated: the single persisted row's `content`
column is the JSON dump of the whole event, which is not the string
"hi". -/
theorem C9_counterexample :
    (handle_chat envOk dbEmpty stAB 5 1 "alice" "T"
      [("content", JValue.jstr "hi")]).db.rows =
      [⟨jsonDump (.message "hi" 1 "alice" 5 "T"), 1, 5⟩] ∧
    jsonDump (.message "hi" 1 "alice" 5 "T") ≠ "hi" :=
  ⟨rfl, by decide⟩

end ChatServer
